import Mathlib

/-!
Verification of the JCoz experiment engine (src/src/profiler.cc, src/src/entry.cc).

This file gives a shallow embedding of the pure logic of the profiler:
the SIGPROF handler (Profiler::Handle), the breakpoint handler
(Profiler::HandleBreakpoint), the experiment wait loop and shutdown tail of
Profiler::runExperiment, the adaptive duration controller
(Profiler::update_experiment_length), the random speedup draw
(Profiler::calculate_random_speedup), the bytecode-range construction in
Profiler::runAgentThread together with Profiler::inExperiment, the sampling
phase timing loop of Profiler::runAgentThread, and the scope filter of
entry.cc (is_class_fqn_prefix, contains_class_fqn_prefix,
is_in_allowed_scope).

Modelling conventions:
- C long and jint / jlocation values are modelled as Int; unsigned counters
  as Nat.  Delay values in the source stay far below overflow, so machine
  wrap-around is not modelled.
- rand() is modelled by passing the drawn value (a Nat) as an argument.
- jcoz_sleep(ns) returns the wall time actually slept; it is modelled by an
  oracle function actualSleep : Int -> Int supplied as an argument.
- The float speedup arithmetic is modelled over the rationals.
- Compile-time constants that live in globals.h (which is not part of the
  two provided source files), such as MIN_EXP_TIME, MAX_EXP_TIME,
  EXP_TIME_FACTOR, HITS_TO_INC_EXP_TIME, HITS_TO_DEC_EXP_TIME and
  NUM_STATIC_CALL_FRAMES, are taken as explicit parameters.
-/

namespace JCoz

/-- SIGNAL_FREQ from profiler.cc: the sampling-signal period in nanoseconds. -/
def SIGNAL_FREQ : Nat := 1000000

/-- MAX_BCI from profiler.cc: maximum possible bytecode index (JVMS14, 4.7.3). -/
def MAX_BCI : Int := 65535

/-- JVMPI_CallFrame: a (method identity, bytecode index) pair.  In the source
the bci is stored in the field named lineno. -/
structure CallFrame where
  method_id : Int
  lineno : Int
  deriving DecidableEq

/-- One entry of a JVMTI line-number table: a start bytecode location and the
source line number it maps to. -/
structure LineEntry where
  start_location : Int
  line_number : Int
  deriving DecidableEq

/-- The fields of struct Experiment that the signal handler reads: the target
method, the per-hit delay quantum, and the bytecode ranges of the target
line (num_ranges is the length of the list). -/
structure Experiment where
  method_id : Int
  delay : Int
  location_ranges : List (Int × Int)
  deriving DecidableEq

/-- struct UserThread: the per-thread state mutated by the signal handler. -/
structure UserThread where
  local_delay : Int
  num_signals_received : Nat
  points_hit : Nat
  deriving DecidableEq

/-- The global profiler state touched by Profiler::Handle: the global delay
ledger, the global progress-point hit counter, and the shared bounded frame
buffer (static_call_frames with its running index call_index). -/
structure GlobalState where
  global_delay : Int
  points_hit : Nat
  call_index : Nat
  static_call_frames : Nat → CallFrame

/-- Profiler::inExperiment: a frame is in the experiment iff its method is the
target method and its bytecode index falls in one of the half-open
location ranges (end exclusive). -/
def inExperiment (exp : Experiment) (curr_frame : CallFrame) : Bool :=
  if curr_frame.method_id ≠ exp.method_id then
    false
  else
    exp.location_ranges.any fun r =>
      decide (r.1 ≤ curr_frame.lineno) && decide (curr_frame.lineno < r.2)

/-- Profiler::frameInScope: membership of the frame's method in the in-scope
method-id set (in_scope_ids is modelled as a list of method ids). -/
def frameInScope (in_scope_ids : List Int) (curr_frame : CallFrame) : Bool :=
  in_scope_ids.contains curr_frame.method_id

/-- The thread's local delay after the in-experiment frame scan of
Profiler::Handle: the scan adds one delay quantum on the first frame found
inside the experiment and then breaks, so at most one quantum is added. -/
def localAfterScan (exp : Experiment) (frames : List CallFrame) (ut : UserThread) : Int :=
  if (frames.find? fun f => inExperiment exp f).isSome then
    ut.local_delay + exp.delay
  else
    ut.local_delay

/-- Profiler::Handle, after the early-outs (profiler not ready, null JNI env,
unrecognized negative frame count): the captured trace is the frames list,
NSTATIC is NUM_STATIC_CALL_FRAMES, and actualSleep is the jcoz_sleep oracle.
Returns the new global state and the new state of the interrupted thread. -/
def Handle (in_experiment : Bool) (exp : Experiment) (in_scope_ids : List Int)
    (NSTATIC : Nat) (frames : List CallFrame) (actualSleep : Int → Int)
    (g : GlobalState) (ut : UserThread) : GlobalState × UserThread :=
  if in_experiment = false then
    -- out-of-experiment branch: reset the local delay, then record the first
    -- in-scope frame into the bounded shared buffer
    let ut1 := { ut with local_delay := 0 }
    match frames.find? (fun f => frameInScope in_scope_ids f) with
    | none => (g, ut1)
    | some f =>
      let index := g.call_index
      ({ g with
          call_index := index + 1,
          static_call_frames :=
            if index < NSTATIC then Function.update g.static_call_frames index f
            else g.static_call_frames },
        ut1)
  else
    -- in-experiment branch
    let ut1 := { ut with num_signals_received := ut.num_signals_received + 1 }
    let ut2 := { ut1 with local_delay := localAfterScan exp frames ut }
    let step :
        GlobalState × UserThread :=
      if ut2.num_signals_received = 10 then
        let sleep_diff := g.global_delay - ut2.local_delay
        if 0 < sleep_diff then
          (g, { ut2 with
                  local_delay := ut2.local_delay + actualSleep sleep_diff,
                  num_signals_received := 0 })
        else
          ({ g with global_delay := g.global_delay + |sleep_diff| },
            { ut2 with num_signals_received := 0 })
      else
        (g, ut2)
    ({ step.1 with points_hit := step.1.points_hit + step.2.points_hit },
      { step.2 with points_hit := 0 })

/-- Profiler::HandleBreakpoint: the C++ statement adds the bool in_experiment
(converted to 0 or 1) to the owning thread's pending hit counter. -/
def HandleBreakpoint (in_experiment : Bool) (ut : UserThread) : UserThread :=
  { ut with points_hit := ut.points_hit + (if in_experiment then 1 else 0) }

/-- Claim C9: each breakpoint hit delivered to HandleBreakpoint increments the
handling thread's pending points_hit by exactly 1 when an experiment is
active and by exactly 0 when no experiment is active, leaving the rest of the
thread state unchanged. -/
theorem c9_breakpoint_hit_counting :
    ∀ ut : UserThread,
      (HandleBreakpoint true ut).points_hit = ut.points_hit + 1 ∧
      (HandleBreakpoint false ut).points_hit = ut.points_hit ∧
      (HandleBreakpoint true ut).local_delay = ut.local_delay ∧
      (HandleBreakpoint false ut).local_delay = ut.local_delay := by
  intro ut
  simp [HandleBreakpoint]

/-- Claim C10: on every sampling signal handled while no experiment is active,
the handler sets the interrupted thread's local_delay to 0, regardless of the
delay the thread was carrying; the signal counter and pending hits of the
thread, the global ledger and the global hit counter are untouched by this
branch.  Hence any thread signaled at least once between experiments enters
the next experiment with local_delay equal to 0. -/
theorem c10_out_of_experiment_resets_local_delay :
    ∀ (exp : Experiment) (ids : List Int) (NSTATIC : Nat)
      (frames : List CallFrame) (actualSleep : Int → Int)
      (g : GlobalState) (ut : UserThread),
      (Handle false exp ids NSTATIC frames actualSleep g ut).2.local_delay = 0 ∧
      (Handle false exp ids NSTATIC frames actualSleep g ut).2.num_signals_received
        = ut.num_signals_received ∧
      (Handle false exp ids NSTATIC frames actualSleep g ut).2.points_hit
        = ut.points_hit ∧
      (Handle false exp ids NSTATIC frames actualSleep g ut).1.global_delay
        = g.global_delay ∧
      (Handle false exp ids NSTATIC frames actualSleep g ut).1.points_hit
        = g.points_hit := by
  intro exp ids NSTATIC frames actualSleep g ut
  cases h : frames.find? (fun f => frameInScope ids f) with
  | none => simp [Handle, h]
  | some f => simp [Handle, h]

/-- Claim C1: on the 10th in-experiment signal (the per-thread counter enters
at 9 and is incremented to 10) the handler compares the global ledger to the
thread's local delay as it stands after the frame scan: if the ledger
exceeds it, the thread sleeps for the difference and adds the actually slept
time to its local delay, the ledger unchanged; otherwise it adds the excess
(local delay minus ledger) to the ledger, the local delay unchanged.  In both
cases the counter is reset to 0.  On any other in-experiment signal the
counter is merely incremented and neither ledger nor sleep step occurs, so
the step recurs every 10 signals. -/
theorem c1_tenth_signal_delay_sync
    (exp : Experiment) (ids : List Int) (NSTATIC : Nat)
    (frames : List CallFrame) (actualSleep : Int → Int)
    (g : GlobalState) (ut : UserThread) :
    (ut.num_signals_received = 9 →
      (Handle true exp ids NSTATIC frames actualSleep g ut).2.num_signals_received = 0 ∧
      (0 < g.global_delay - localAfterScan exp frames ut →
        (Handle true exp ids NSTATIC frames actualSleep g ut).2.local_delay
          = localAfterScan exp frames ut
            + actualSleep (g.global_delay - localAfterScan exp frames ut) ∧
        (Handle true exp ids NSTATIC frames actualSleep g ut).1.global_delay
          = g.global_delay) ∧
      (g.global_delay - localAfterScan exp frames ut ≤ 0 →
        (Handle true exp ids NSTATIC frames actualSleep g ut).1.global_delay
          = g.global_delay + (localAfterScan exp frames ut - g.global_delay) ∧
        (Handle true exp ids NSTATIC frames actualSleep g ut).2.local_delay
          = localAfterScan exp frames ut)) ∧
    (ut.num_signals_received ≠ 9 →
      (Handle true exp ids NSTATIC frames actualSleep g ut).2.num_signals_received
        = ut.num_signals_received + 1 ∧
      (Handle true exp ids NSTATIC frames actualSleep g ut).1.global_delay
        = g.global_delay ∧
      (Handle true exp ids NSTATIC frames actualSleep g ut).2.local_delay
        = localAfterScan exp frames ut) := by
  constructor
  · intro h9
    have h10 : ut.num_signals_received + 1 = 10 := by omega
    refine ⟨?_, ?_, ?_⟩
    · by_cases hd : 0 < g.global_delay - localAfterScan exp frames ut <;>
        simp [Handle, h10, hd]
    · intro hd
      simp [Handle, h10, hd]
    · intro hd
      have hd2 : ¬ 0 < g.global_delay - localAfterScan exp frames ut := by omega
      have habs : |g.global_delay - localAfterScan exp frames ut|
          = localAfterScan exp frames ut - g.global_delay := by
        rw [abs_of_nonpos hd]
        ring
      simp [Handle, h10, hd2, habs]
  · intro h9
    have h10 : ut.num_signals_received + 1 ≠ 10 := by omega
    simp [Handle, h10]

/-- Witness for claim C1 at a concrete state: a thread entering its 10th
in-experiment signal with local delay 0 against a global ledger of 100,
with a sleep oracle that sleeps exactly the requested time, ends with
local delay 100 and a reset signal counter, and the ledger is unchanged. -/
theorem c1_tenth_signal_delay_sync_witness :
    (Handle true { method_id := 1, delay := 7, location_ranges := [(0, 10)] } [] 0 []
        (fun d => d)
        { global_delay := 100, points_hit := 0, call_index := 0,
          static_call_frames := fun _ => { method_id := 0, lineno := 0 } }
        { local_delay := 0, num_signals_received := 9, points_hit := 3 }).2.local_delay
      = 100 ∧
    (Handle true { method_id := 1, delay := 7, location_ranges := [(0, 10)] } [] 0 []
        (fun d => d)
        { global_delay := 100, points_hit := 0, call_index := 0,
          static_call_frames := fun _ => { method_id := 0, lineno := 0 } }
        { local_delay := 0, num_signals_received := 9, points_hit := 3 }).2.num_signals_received
      = 0 := by
  have h := c1_tenth_signal_delay_sync
    { method_id := 1, delay := 7, location_ranges := [(0, 10)] } [] 0 []
    (fun d => d)
    { global_delay := 100, points_hit := 0, call_index := 0,
      static_call_frames := fun _ => { method_id := 0, lineno := 0 } }
    { local_delay := 0, num_signals_received := 9, points_hit := 3 }
  have h9 := h.1 rfl
  have hpos : (0 : Int) <
      (100 : Int) - localAfterScan
        { method_id := 1, delay := 7, location_ranges := [(0, 10)] } []
        { local_delay := 0, num_signals_received := 9, points_hit := 3 } := by
    simp [localAfterScan]
  refine ⟨?_, h9.1⟩
  have hmain := h9.2.1 hpos
  rw [hmain.1]
  simp [localAfterScan]

/-- The guard of the experiment wait loop in Profiler::runExperiment:
while (running and ((end_to_end and points_hit == 0) or now < end)) the loop
sleeps one signal period and broadcasts the sampling signal.  nowBeforeEnd
models the clock comparison now < end. -/
def experimentWaitContinues (running end_to_end : Bool) (points_hit : Nat)
    (nowBeforeEnd : Bool) : Bool :=
  running && ((end_to_end && decide (points_hit = 0)) || nowBeforeEnd)

/-- Counterexample to claim C2: in end-to-end mode, with the engine running,
one progress-point hit already observed and the adaptive duration not yet
elapsed, the wait loop still continues, so end-to-end termination is not
"once at least one progress-point hit is observed": the duration condition
applies as well, contradicting "one condition or the other, not both". -/
theorem c2_wait_condition_counterexample :
    experimentWaitContinues true true 1 true = true ∧ 1 ≠ 0 := by
  constructor
  · rfl
  · decide

/-- Claim C2 as amended: while the engine is running, the wait loop
terminates in end-to-end mode exactly once at least one progress-point hit
has been observed AND the adaptive duration has elapsed, and in normal mode
exactly once the adaptive duration has elapsed (hits ignored). -/
theorem c2_wait_condition_amended :
    ∀ (end_to_end : Bool) (points_hit : Nat) (nowBeforeEnd : Bool),
      experimentWaitContinues true end_to_end points_hit nowBeforeEnd = false ↔
        (if end_to_end then 1 ≤ points_hit ∧ nowBeforeEnd = false
         else nowBeforeEnd = false) := by
  intro end_to_end points_hit nowBeforeEnd
  cases end_to_end <;> cases nowBeforeEnd
  all_goals simp [experimentWaitContinues]
  all_goals omega

/-- The C strstr function on character lists: the index of the first
occurrence of pat inside hay (strstr of an empty pattern returns hay
itself, i.e. index 0). -/
def firstOccur : List Char → List Char → Option Nat
  | [], pat => if pat.isEmpty then some 0 else none
  | c :: rest, pat =>
    if pat.isPrefixOf (c :: rest) then some 0
    else (firstOccur rest pat).map (fun i => i + 1)

/-- entry.cc is_class_fqn_prefix: strstr(class_sig, prefix) == class_sig + 1,
i.e. the first occurrence of the scope string inside the class signature is
at index 1 (right after the one-character type-descriptor marker). -/
def is_class_fqn_prefix (scope : List Char) (class_sig : List Char) : Bool :=
  firstOccur class_sig scope == some 1

/-- entry.cc contains_class_fqn_prefix: some element of the scope list
matches according to is_class_fqn_prefix. -/
def contains_class_fqn_prefix (elements : List (List Char)) (class_sig : List Char) : Bool :=
  elements.any fun scope => is_class_fqn_prefix scope class_sig

/-- entry.cc is_in_allowed_scope: no ignored scope matches and some search
scope matches. -/
def is_in_allowed_scope (search_scopes ignored_scopes : List (List Char))
    (class_sig : List Char) : Bool :=
  !( contains_class_fqn_prefix ignored_scopes class_sig)
    && contains_class_fqn_prefix search_scopes class_sig

/-- The reference match of claim C3: the signature with its first character
skipped starts with the scope string. -/
def naiveScopeMatch (scope : List Char) (class_sig : List Char) : Bool :=
  scope.isPrefixOf (class_sig.drop 1)

/-- The naive reference implementation of claim C3: some search scope matches
(by naiveScopeMatch) and no ignore scope matches. -/
def naive_in_scope (search_scopes ignored_scopes : List (List Char))
    (class_sig : List Char) : Bool :=
  (search_scopes.any fun scope => naiveScopeMatch scope class_sig)
    && !(ignored_scopes.any fun scope => naiveScopeMatch scope class_sig)

theorem firstOccur_eq_zero (hay pat : List Char) :
    firstOccur hay pat = some 0 ↔ pat.isPrefixOf hay = true := by
  cases hay with
  | nil =>
    cases pat with
    | nil => simp [firstOccur, List.isPrefixOf]
    | cons c cs => simp [firstOccur, List.isPrefixOf, List.isEmpty]
  | cons c rest =>
    by_cases h : pat.isPrefixOf (c :: rest)
    · simp [firstOccur, h]
    · simp only [firstOccur, if_neg h]
      cases firstOccur rest pat with
      | none => simp [h]
      | some i => simp [h]

theorem is_class_fqn_prefix_eq_naive (scope sig : List Char)
    (h : scope.isPrefixOf sig = false) :
    is_class_fqn_prefix scope sig = naiveScopeMatch scope sig := by
  cases sig with
  | nil =>
    cases scope with
    | nil => simp [List.isPrefixOf] at h
    | cons a as => rfl
  | cons c rest =>
    have hnp : ¬ scope.isPrefixOf (c :: rest) = true := by simp [h]
    have hnaive : naiveScopeMatch scope (c :: rest) = scope.isPrefixOf rest := by
      simp [naiveScopeMatch]
    have key : ((firstOccur rest scope).map (fun i => i + 1) == some 1)
        = (firstOccur rest scope == some 0) := by
      cases firstOccur rest scope with
      | none => rfl
      | some i =>
        cases i with
        | zero => rfl
        | succ j => rfl
    have key2 : (firstOccur rest scope == some 0) = scope.isPrefixOf rest := by
      cases hp : scope.isPrefixOf rest
      · have hne : firstOccur rest scope ≠ some 0 := by
          intro hc
          have := (firstOccur_eq_zero rest scope).mp hc
          rw [hp] at this
          exact Bool.false_ne_true this
        exact beq_eq_false_iff_ne.mpr hne
      · have h0 := (firstOccur_eq_zero rest scope).mpr hp
        rw [h0]
        rfl
    rw [hnaive]
    simp only [ is_class_fqn_prefix, firstOccur, if_neg hnp]
    rw [key, key2]

theorem contains_class_fqn_prefix_eq_naive (l : List (List Char)) (sig : List Char)
    (h : ∀ p ∈ l, p.isPrefixOf sig = false) :
    contains_class_fqn_prefix l sig = l.any fun scope => naiveScopeMatch scope sig := by
  induction l with
  | nil => rfl
  | cons p ps ih =>
    have hp : p.isPrefixOf sig = false := h p (by simp)
    have hps : ∀ q ∈ ps, q.isPrefixOf sig = false := fun q hq => h q (by simp [hq])
    simp only [ contains_class_fqn_prefix, List.any_cons] at *
    rw [ is_class_fqn_prefix_eq_naive p sig hp, ih hps]

/-- Counterexample to claim C3: for the class signature LLL; (a class whose
fully-qualified name is LL) and a search scope LL, strstr finds the scope at
index 0 of the signature, not at index 1, so is_in_allowed_scope rejects the
class even though the naive reference accepts it: the two disagree. -/
theorem c3_scope_classification_counterexample :
    is_in_allowed_scope [['L', 'L']] [] ['L', 'L', 'L', ';'] = false ∧
    naive_in_scope [['L', 'L']] [] ['L', 'L', 'L', ';'] = true := by
  constructor
  · rfl
  · rfl

/-- Claim C3 as amended: is_in_allowed_scope agrees with the naive reference
implementation (skip the one-character marker, then test the prefix) for
every search-scope list, ignore-scope list and class signature, provided no
listed scope string is itself a prefix of the full signature including its
leading marker character (in particular no listed scope is empty). -/
theorem c3_scope_classification_amended
    (search_scopes ignored_scopes : List (List Char)) (sig : List Char)
    (hs : ∀ p ∈ search_scopes, p.isPrefixOf sig = false)
    (hi : ∀ p ∈ ignored_scopes, p.isPrefixOf sig = false) :
    is_in_allowed_scope search_scopes ignored_scopes sig
      = naive_in_scope search_scopes ignored_scopes sig := by
  unfold is_in_allowed_scope naive_in_scope
  rw [contains_class_fqn_prefix_eq_naive search_scopes sig hs,
    contains_class_fqn_prefix_eq_naive ignored_scopes sig hi]
  exact Bool.and_comm _ _

/-- Witness for the amended claim C3 at a concrete input: signature Lcom/A;
with search scope com and ignore scope bad, whose hypotheses hold, and on
which both classifiers answer the same. -/
theorem c3_scope_classification_amended_witness :
    (∀ p ∈ [['c', 'o', 'm']], p.isPrefixOf ['L', 'c', 'o', 'm', '/', 'A', ';'] = false) ∧
    is_in_allowed_scope [['c', 'o', 'm']] [['b', 'a', 'd']]
        ['L', 'c', 'o', 'm', '/', 'A', ';']
      = naive_in_scope [['c', 'o', 'm']] [['b', 'a', 'd']]
        ['L', 'c', 'o', 'm', '/', 'A', ';'] :=
  ⟨by decide,
    c3_scope_classification_amended [['c', 'o', 'm']] [['b', 'a', 'd']]
      ['L', 'c', 'o', 'm', '/', 'A', ';'] (by decide) (by decide)⟩

/-- Profiler::update_experiment_length.  The compile-time constants
EXP_TIME_FACTOR, MIN_EXP_TIME, MAX_EXP_TIME, HITS_TO_INC_EXP_TIME and
HITS_TO_DEC_EXP_TIME live in globals.h, which is not among the provided
source files; they are taken as parameters (factor, MIN_T, MAX_T, INC_T,
DEC_T).  Note that the source checks the cap with experiment_time * 2 but
grows with EXP_TIME_FACTOR, which is coherent for factor = 2. -/
def update_experiment_length (fix_exp : Bool)
    (factor MIN_T MAX_T INC_T DEC_T : Nat)
    (points_hit : Nat) (experiment_time : Nat) : Nat :=
  if fix_exp then experiment_time
  else if points_hit ≤ INC_T then
    if experiment_time * 2 > MAX_T then MAX_T
    else experiment_time * factor
  else if MIN_T < experiment_time ∧ DEC_T ≤ points_hit then
    experiment_time / factor
  else
    experiment_time

/-- Claim C4: with the fixed-duration flag the duration never changes; with
hits at or below the low threshold, k low-hit trials multiply the duration
by two raised to k, capped at the maximum (so once at the maximum it stays
there); with hits at or above the high threshold and duration above the
minimum, one trial halves the duration; repeated high-hit trials walk any
reachable duration MIN_T * 2 ^ j down to the minimum, and at the minimum a
high-hit trial leaves the duration unchanged. -/
theorem c4_duration_control (factor MIN_T MAX_T INC_T DEC_T : Nat)
    (hfactor : factor = 2) (hmin : 0 < MIN_T) (hth : INC_T < DEC_T) :
    (∀ points_hit t,
      update_experiment_length true factor MIN_T MAX_T INC_T DEC_T points_hit t = t) ∧
    (∀ points_hit t k, points_hit ≤ INC_T → t ≤ MAX_T →
      (update_experiment_length false factor MIN_T MAX_T INC_T DEC_T points_hit)^[k] t
        = min (t * 2 ^ k) MAX_T) ∧
    (∀ points_hit t, DEC_T ≤ points_hit → MIN_T < t →
      update_experiment_length false factor MIN_T MAX_T INC_T DEC_T points_hit t = t / 2) ∧
    (∀ points_hit j, DEC_T ≤ points_hit →
      (update_experiment_length false factor MIN_T MAX_T INC_T DEC_T points_hit)^[j]
          (MIN_T * 2 ^ j) = MIN_T) ∧
    (∀ points_hit, DEC_T ≤ points_hit →
      update_experiment_length false factor MIN_T MAX_T INC_T DEC_T points_hit MIN_T
        = MIN_T) := by
  subst hfactor
  have hfix : ∀ points_hit t,
      update_experiment_length true 2 MIN_T MAX_T INC_T DEC_T points_hit t = t := by
    intro ph t
    simp [update_experiment_length]
  have grow : ∀ ph t, ph ≤ INC_T →
      update_experiment_length false 2 MIN_T MAX_T INC_T DEC_T ph t = min (t * 2) MAX_T := by
    intro ph t hph
    simp only [update_experiment_length]
    rw [if_neg (by simp), if_pos hph]
    rcases Nat.lt_or_ge MAX_T (t * 2) with hc | hc
    · rw [if_pos hc, Nat.min_eq_right (le_of_lt hc)]
    · rw [if_neg (not_lt.mpr hc), Nat.min_eq_left hc]
  have shrink : ∀ ph t, DEC_T ≤ ph → MIN_T < t →
      update_experiment_length false 2 MIN_T MAX_T INC_T DEC_T ph t = t / 2 := by
    intro ph t hph ht
    have h1 : ¬ ph ≤ INC_T := by omega
    simp only [update_experiment_length]
    rw [if_neg (by simp), if_neg h1, if_pos ⟨ht, hph⟩]
  have staymin : ∀ ph, DEC_T ≤ ph →
      update_experiment_length false 2 MIN_T MAX_T INC_T DEC_T ph MIN_T = MIN_T := by
    intro ph hph
    have h1 : ¬ ph ≤ INC_T := by omega
    have h2 : ¬ (MIN_T < MIN_T ∧ DEC_T ≤ ph) := by omega
    simp only [update_experiment_length]
    rw [if_neg (by simp), if_neg h1, if_neg h2]
  refine ⟨hfix, ?_, shrink, ?_, staymin⟩
  · intro ph t k hph ht
    induction k with
    | zero => simpa using (Nat.min_eq_left ht).symm
    | succ n ih =>
      rw [Function.iterate_succ_apply', ih, grow ph _ hph]
      have h2 : t * 2 ^ (n + 1) = t * 2 ^ n * 2 := by ring
      simp only [Nat.min_def]
      split_ifs <;> omega
  · intro ph j hph
    induction j with
    | zero => simp
    | succ n ih =>
      rw [Function.iterate_succ_apply]
      have hp : 0 < 2 ^ n := pow_pos (by omega) n
      have h1 : 2 ≤ 2 ^ (n + 1) := by rw [pow_succ]; omega
      have hgt : MIN_T < MIN_T * 2 ^ (n + 1) :=
        calc MIN_T = MIN_T * 1 := (Nat.mul_one _).symm
          _ < MIN_T * 2 := by omega
          _ ≤ MIN_T * 2 ^ (n + 1) := Nat.mul_le_mul (le_refl MIN_T) h1
      rw [shrink ph _ hph hgt]
      have hdiv : MIN_T * 2 ^ (n + 1) / 2 = MIN_T * 2 ^ n := by
        have h3 : MIN_T * 2 ^ (n + 1) = MIN_T * 2 ^ n * 2 := by ring
        rw [h3]
        generalize MIN_T * 2 ^ n = A
        omega
      rw [hdiv, ih]

/-- Witness for claim C4 with the concrete constants factor 2, minimum 100,
maximum 6400, low threshold 5, high threshold 20: two consecutive high-hit
trials (21 hits) walk the duration 400 down to the minimum 100. -/
theorem c4_duration_control_witness :
    0 < 100 ∧ 5 < 20 ∧
    (update_experiment_length false 2 100 6400 5 20 21)^[2] (100 * 2 ^ 2) = 100 :=
  ⟨by decide, by decide,
    (c4_duration_control 2 100 6400 5 20 rfl (by decide) (by decide)).2.2.2.1 21 2
      (by decide)⟩

/-- Profiler::calculate_random_speedup: randVal models the value returned by
rand() (a nonnegative int); the source computes rand() % 25, returns 0 for
the five residues below 5 and otherwise (residue - 4) / 20 as a float,
modelled here over the rationals. -/
def calculate_random_speedup (randVal : Nat) : ℚ :=
  if randVal % 25 < 5 then 0
  else (((randVal % 25 : Nat) : ℚ) - 4) / 20

/-- The speedup expressed in twentieths: calculate_random_speedup equals
speedup_level divided by 20. -/
def speedup_level (randVal : Nat) : Nat :=
  if randVal % 25 < 5 then 0 else randVal % 25 - 4

theorem calculate_random_speedup_eq_level (n : Nat) :
    calculate_random_speedup n = ((speedup_level n : Nat) : ℚ) / 20 := by
  by_cases h : n % 25 < 5
  · simp [calculate_random_speedup, speedup_level, h]
  · have h4 : 4 ≤ n % 25 := by omega
    simp only [calculate_random_speedup, speedup_level, if_neg h]
    rw [Nat.cast_sub h4]
    norm_num

theorem div_twenty_inj (a b : Nat) :
    ((a : ℚ) / 20 = (b : ℚ) / 20) ↔ a = b := by
  constructor
  · intro h
    have h2 : (a : ℚ) = (b : ℚ) := by
      field_simp at h
      exact_mod_cast h
    exact_mod_cast h2
  · intro h
    rw [h]

/-- Claim C5: every value returned by calculate_random_speedup is 0 or k/20
for some k between 1 and 20; over the 25 equiprobable residues of the
uniform draw rand() % 25, exactly 5 residues (probability 20 percent)
produce 0 and each of the 20 nonzero values is produced by exactly 1
residue (probability 4 percent each). -/
theorem c5_speedup_distribution :
    (∀ n : Nat, calculate_random_speedup n = 0 ∨
      ∃ k : Nat, 1 ≤ k ∧ k ≤ 20 ∧ calculate_random_speedup n = (k : ℚ) / 20) ∧
    ((Finset.range 25).filter (fun r => calculate_random_speedup r = 0)).card = 5 ∧
    (∀ k : Fin 20,
      ((Finset.range 25).filter
        (fun r => calculate_random_speedup r = (((k : Nat) : ℚ) + 1) / 20)).card = 1) := by
  have hnat : ∀ k : Fin 20,
      ((Finset.range 25).filter (fun r => speedup_level r = (k : Nat) + 1)).card = 1 := by
    decide
  refine ⟨?_, ?_, ?_⟩
  · intro n
    by_cases h : n % 25 < 5
    · left
      rw [calculate_random_speedup_eq_level]
      simp [speedup_level, h]
    · right
      have h25 : n % 25 < 25 := Nat.mod_lt _ (by omega)
      refine ⟨n % 25 - 4, by omega, by omega, ?_⟩
      rw [calculate_random_speedup_eq_level]
      simp only [speedup_level, if_neg h]
  · have hzero : ∀ r ∈ Finset.range 25,
        (calculate_random_speedup r = 0 ↔ speedup_level r = 0) := by
      intro r _
      rw [calculate_random_speedup_eq_level r]
      constructor
      · intro h
        have h2 : ((speedup_level r : Nat) : ℚ) / 20 = ((0 : Nat) : ℚ) / 20 := by
          simpa using h
        exact (div_twenty_inj _ _).mp h2
      · intro h
        rw [h]
        norm_num
    rw [Finset.filter_congr hzero]
    decide
  · intro k
    have hpred : ∀ r ∈ Finset.range 25,
        (calculate_random_speedup r = (((k : Nat) : ℚ) + 1) / 20 ↔
          speedup_level r = (k : Nat) + 1) := by
      intro r _
      rw [calculate_random_speedup_eq_level r]
      have hc : (((k : Nat) : ℚ) + 1) = (((k : Nat) + 1 : Nat) : ℚ) := by
        push_cast
        ring
      rw [hc, div_twenty_inj]
    rw [Finset.filter_congr hpred]
    exact hnat k

/-- The location-range construction of Profiler::runAgentThread: walk the
line-number table; every entry whose line_number equals the resolved target
line contributes a range from its start_location to the following entry's
start_location, or to MAX_BCI + 1 when it is the last entry of the table. -/
def buildRanges : List LineEntry → Int → List (Int × Int)
  | [], _ => []
  | [e], target =>
    if e.line_number = target then [(e.start_location, MAX_BCI + 1)] else []
  | e :: e2 :: rest, target =>
    (if e.line_number = target then [(e.start_location, e2.start_location)] else [])
      ++ buildRanges (e2 :: rest) target

/-- Claim C6's reading of the ranges: pair every entry of the table with the
next entry's start location (the last entry with MAX_BCI + 1), keep exactly
the entries whose line number is the target line, and form the half-open
pair (start_location, bound). -/
def specRanges (entries : List LineEntry) (target : Int) : List (Int × Int) :=
  ((entries.zip (((entries.map fun e => e.start_location).tail) ++ [MAX_BCI + 1])).filter
      fun p => p.1.line_number == target).map
    fun p => (p.1.start_location, p.2)

theorem buildRanges_eq_specRanges (entries : List LineEntry) (target : Int) :
    buildRanges entries target = specRanges entries target := by
  induction entries with
  | nil => rfl
  | cons e rest ih =>
    cases rest with
    | nil =>
      by_cases h : e.line_number = target <;> simp [buildRanges, specRanges, h]
    | cons e2 rest2 =>
      simp only [specRanges, List.map_cons, List.tail_cons] at ih ⊢
      by_cases h : e.line_number = target <;>
        simp [buildRanges, h, ih]

theorem inExperiment_iff (exp : Experiment) (frame : CallFrame) :
    inExperiment exp frame = true ↔
      frame.method_id = exp.method_id ∧
        ∃ r ∈ exp.location_ranges, r.1 ≤ frame.lineno ∧ frame.lineno < r.2 := by
  unfold inExperiment
  by_cases h : frame.method_id = exp.method_id
  · simp [h, List.any_eq_true]
  · simp [h]

/-- Claim C6: the experiment's location ranges are exactly the entries of the
line-number table whose line number equals the resolved target line, each as
a half-open range up to the next entry's start (MAX_BCI + 1 = 65536 for the
last entry); and inExperiment holds iff the frame's method is the target
method and its bytecode index lies in one of the ranges, end exclusive. -/
theorem c6_bytecode_ranges :
    (∀ (entries : List LineEntry) (target : Int),
      buildRanges entries target = specRanges entries target) ∧
    (∀ (exp : Experiment) (frame : CallFrame),
      inExperiment exp frame = true ↔
        frame.method_id = exp.method_id ∧
          ∃ r ∈ exp.location_ranges, r.1 ≤ frame.lineno ∧ frame.lineno < r.2) :=
  ⟨buildRanges_eq_specRanges, inExperiment_iff⟩

/-- The randomized sleep of the sampling loop in Profiler::runAgentThread:
curr_sleep = 2 * SIGNAL_FREQ - rand() % SIGNAL_FREQ, where r models the
value returned by rand(). -/
def samplingSleep (r : Nat) : Nat :=
  2 * SIGNAL_FREQ - r % SIGNAL_FREQ

/-- The sampling phase of Profiler::runAgentThread: while the accrued
(requested) sleep time is below the budget of 30 * SIGNAL_FREQ, sleep a
randomized interval, broadcast the sampling signal and add the interval to
the accrued total.  draws is the stream of rand() values; returns the final
accrued total and the number of sleep-and-broadcast rounds executed. -/
def samplingPhase : List Nat → Nat → Nat × Nat
  | [], total_accrued_time => (total_accrued_time, 0)
  | r :: rs, total_accrued_time =>
    if total_accrued_time < 30 * SIGNAL_FREQ then
      ((samplingPhase rs (total_accrued_time + samplingSleep r)).1,
        (samplingPhase rs (total_accrued_time + samplingSleep r)).2 + 1)
    else
      (total_accrued_time, 0)

/-- Counterexample to claim C7: every possible randomized interval strictly
exceeds the signal period (the smallest interval, drawn at
rand() % SIGNAL_FREQ = SIGNAL_FREQ - 1, is SIGNAL_FREQ + 1 and the largest
is 2 * SIGNAL_FREQ), so the intervals are not centered on the signal
period: no draw ever produces an interval at or below it. -/
theorem c7_sampling_interval_counterexample :
    samplingSleep 999999 = SIGNAL_FREQ + 1 ∧
    ¬ ∃ r : Nat, samplingSleep r ≤ SIGNAL_FREQ := by
  constructor
  · decide
  · rintro ⟨r, hr⟩
    unfold samplingSleep SIGNAL_FREQ at hr
    omega

/-- Claim C7 as amended: every randomized interval lies strictly above one
signal period and at most two signal periods (so the distribution is
centered on 1.5 signal periods, not on the signal period), and with enough
random draws the phase ends exactly when the accrued sleep time reaches the
fixed budget of 30 signal periods: the final total is at least the budget
and overshoots it by less than one maximal interval. -/
theorem c7_sampling_phase_amended :
    (∀ r : Nat, SIGNAL_FREQ < samplingSleep r ∧ samplingSleep r ≤ 2 * SIGNAL_FREQ) ∧
    (∀ draws : List Nat, 30 ≤ draws.length →
      30 * SIGNAL_FREQ ≤ (samplingPhase draws 0).1 ∧
      (samplingPhase draws 0).1 < 32 * SIGNAL_FREQ) := by
  have hbound : ∀ r : Nat,
      SIGNAL_FREQ < samplingSleep r ∧ samplingSleep r ≤ 2 * SIGNAL_FREQ := by
    intro r
    unfold samplingSleep SIGNAL_FREQ
    omega
  have hlow : ∀ (draws : List Nat) (acc : Nat),
      30 * SIGNAL_FREQ ≤ acc + (SIGNAL_FREQ + 1) * draws.length →
      30 * SIGNAL_FREQ ≤ (samplingPhase draws acc).1 := by
    intro draws
    induction draws with
    | nil =>
      intro acc h
      simpa [samplingPhase] using h
    | cons r rs ih =>
      intro acc h
      by_cases hc : acc < 30 * SIGNAL_FREQ
      · simp only [samplingPhase, if_pos hc]
        apply ih
        have hs := (hbound r).1
        simp only [List.length_cons] at h
        simp only [SIGNAL_FREQ] at h hs ⊢
        omega
      · simp only [samplingPhase, if_neg hc]
        omega
  have hhigh : ∀ (draws : List Nat) (acc : Nat),
      acc < 32 * SIGNAL_FREQ → (samplingPhase draws acc).1 < 32 * SIGNAL_FREQ := by
    intro draws
    induction draws with
    | nil =>
      intro acc h
      simpa [samplingPhase] using h
    | cons r rs ih =>
      intro acc h
      by_cases hc : acc < 30 * SIGNAL_FREQ
      · simp only [samplingPhase, if_pos hc]
        apply ih
        have hs := (hbound r).2
        simp only [SIGNAL_FREQ] at hs hc ⊢
        omega
      · simp only [samplingPhase, if_neg hc]
        exact h
  refine ⟨hbound, ?_⟩
  intro draws hlen
  refine ⟨hlow draws 0 ?_, hhigh draws 0 ?_⟩
  · simp only [SIGNAL_FREQ]
    omega
  · simp only [SIGNAL_FREQ]
    omega

/-- Witness for the amended claim C7: a concrete stream of 30 draws (all
zero, i.e. maximal intervals) satisfies the length hypothesis, and the
phase ends with an accrued total between the budget and the budget plus one
maximal interval. -/
theorem c7_sampling_phase_amended_witness :
    30 ≤ (List.replicate 30 0).length ∧
    30 * SIGNAL_FREQ ≤ (samplingPhase (List.replicate 30 0) 0).1 ∧
    (samplingPhase (List.replicate 30 0) 0).1 < 32 * SIGNAL_FREQ := by
  have h := c7_sampling_phase_amended.2 (List.replicate 30 0) (by simp)
  exact ⟨by simp, h.1, h.2⟩

/-- The outcome of the tail of Profiler::runExperiment (everything after the
final signal round): the CSV rows appended to the output file (class
signature, line, speedup, duration, effective duration, points hit), the
experiment_time after the optional adaptive update, whether the trial's
results were recorded into current_experiment, and the global ledger and
global hit counter afterwards. -/
structure RunExperimentOutcome where
  csv_rows : List (List Char × Int × ℚ × Int × Int × Nat)
  experiment_time_after : Nat
  results_recorded : Bool
  global_delay_after : Int
  points_hit_after : Nat
  deriving DecidableEq

/-- The tail of Profiler::runExperiment.  The wait loop and the final signal
round (sleep one period, clear in_experiment, broadcast once more, sleep one
period) have already run unconditionally; this models the code from the
running check onward: if the engine was stopped, free the range list and
return; otherwise record delay, hit count and duration into
current_experiment, reset the global counters, resolve the class signature
(sig, none on failure), maybe update the experiment length, and append one
CSV row. -/
def runExperimentTail (running : Bool) (sig : Option (List Char))
    (fix_exp : Bool) (factor MIN_T MAX_T INC_T DEC_T : Nat)
    (experiment_time : Nat) (global_delay : Int) (points_hit : Nat)
    (duration : Int) (speedup : ℚ) (lineno : Int) : RunExperimentOutcome :=
  if running = false then
    { csv_rows := [], experiment_time_after := experiment_time,
      results_recorded := false, global_delay_after := global_delay,
      points_hit_after := points_hit }
  else
    match sig with
    | none =>
      { csv_rows := [], experiment_time_after := experiment_time,
        results_recorded := true, global_delay_after := 0, points_hit_after := 0 }
    | some s =>
      { csv_rows := [(s, lineno, speedup, duration, duration - global_delay, points_hit)],
        experiment_time_after :=
          update_experiment_length fix_exp factor MIN_T MAX_T INC_T DEC_T
            points_hit experiment_time,
        results_recorded := true, global_delay_after := 0, points_hit_after := 0 }

/-- Claim C8: if the running flag was cleared during the experiment, the tail
of runExperiment (reached only after the final signal round) appends no CSV
row for the in-flight trial, records nothing into the current experiment,
leaves experiment_time unchanged, and also leaves the global ledger and hit
counter untouched. -/
theorem c8_shutdown_discards_trial :
    ∀ (sig : Option (List Char)) (fix_exp : Bool)
      (factor MIN_T MAX_T INC_T DEC_T : Nat) (experiment_time : Nat)
      (global_delay : Int) (points_hit : Nat) (duration : Int) (speedup : ℚ)
      (lineno : Int),
      runExperimentTail false sig fix_exp factor MIN_T MAX_T INC_T DEC_T
          experiment_time global_delay points_hit duration speedup lineno
        = { csv_rows := [], experiment_time_after := experiment_time,
            results_recorded := false, global_delay_after := global_delay,
            points_hit_after := points_hit } := by
  intro sig fix_exp factor MIN_T MAX_T INC_T DEC_T experiment_time global_delay
    points_hit duration speedup lineno
  rfl

end JCoz
